import Mathlib

/-!
Verification of the staticblocks template engine (src/core/template-engine.ts,
src/core/builder.ts, src/utils/index.ts) against its specification.

The engine is embedded shallowly: JavaScript runtime values are the inductive
type `Value`; the regex-driven passes of `TemplateEngine.render` are modelled as
character-list scanners that implement the exact leftmost-match semantics of the
four source regexes (conditionals, loops, helpers, variables); helper functions
are total Lean functions returning `HRes`, where `HRes.thrown` models a thrown
JavaScript exception (caught by `processHelpers`) and `HRes.ok none` models a
helper returning `undefined`.  The while-loop of `processConditionals` and the
mutual recursion between `render` and loop-body expansion are given explicit
recursion budgets that are large enough for the executions considered (the loop
budget `length + 1` is proved sufficient in the theorems for claim C5).
-/

set_option maxRecDepth 8000

/- JavaScript runtime values as stored in a render context.  `null` is the
JavaScript null; absence (undefined) is modelled by `Option.none` at use sites.
Objects and arrays use the mutual list types `Fields` and `Values` so that all
functions over them are structurally recursive. -/
mutual
inductive Value where
  | str (s : String)
  | num (n : Int)
  | bool (b : Bool)
  | null
  | obj (fields : Fields)
  | arr (items : Values)
inductive Fields where
  | nil
  | cons (key : String) (val : Value) (rest : Fields)
inductive Values where
  | nil
  | cons (head : Value) (tail : Values)
end

/-- Build an object field list from a Lean list (first binding wins on lookup,
so later JavaScript spreads are modelled by prepending). -/
def Fields.ofList : List (String × Value) → Fields
  | [] => .nil
  | (k, v) :: rest => .cons k v (Fields.ofList rest)

/-- Build an array value list from a Lean list. -/
def Values.ofList : List Value → Values
  | [] => .nil
  | v :: rest => .cons v (Values.ofList rest)

/-- Number of elements of an array value. -/
def Values.length : Values → Nat
  | .nil => 0
  | .cons _ tail => 1 + tail.length

/-- Concatenation of field lists; bindings of the left list shadow bindings of
the right list under `lookupField`. -/
def Fields.append : Fields → Fields → Fields
  | .nil, gs => gs
  | .cons k v rest, gs => .cons k v (rest.append gs)

/-- First binding of a key in a field list (JavaScript property lookup on the
object built by the corresponding sequence of spreads). -/
def lookupField : Fields → String → Option Value
  | .nil, _ => none
  | .cons k v rest, key => if k = key then some v else lookupField rest key

/-- Index into an array value list. -/
def Values.get? : Values → Nat → Option Value
  | .nil, _ => none
  | .cons v _, 0 => some v
  | .cons _ tail, n + 1 => tail.get? n

/-- Characters matched by the regex class `[a-zA-Z0-9_]` (helper names). -/
def isWordChar (c : Char) : Bool :=
  (('a' ≤ c && c ≤ 'z') || ('A' ≤ c && c ≤ 'Z') || ('0' ≤ c && c ≤ '9') || c = '_')

/-- Characters matched by the regex class `[a-zA-Z0-9_.]` (variable paths). -/
def isVarChar (c : Char) : Bool :=
  isWordChar c || c = '.'

/-- JavaScript whitespace as recognised by `\s` and `String.prototype.trim`
(the ASCII part plus no-break space and BOM; the templates under study only
ever use plain spaces). -/
def isJsWs (c : Char) : Bool :=
  (c = ' ' || c = '\t' || c = '\n' || c = '\x0d' || c = '\x0b' || c = '\x0c' ||
   c = ' ' || c = '﻿')

/-- Model of `String.prototype.trim`. -/
def jsTrimChars (l : List Char) : List Char :=
  ((l.dropWhile isJsWs).reverse.dropWhile isJsWs).reverse

/-- Split a character list on a separator character, JavaScript
`String.prototype.split` semantics (an empty input yields one empty group). -/
def splitOnChar (sep : Char) : List Char → List (List Char)
  | [] => [[]]
  | c :: rest =>
    if c = sep then [] :: splitOnChar sep rest
    else
      match splitOnChar sep rest with
      | [] => [[c]]
      | g :: gs => (c :: g) :: gs

/-- Decimal digits of a natural number, most significant first; the first
argument is a recursion budget that `natToChars` instantiates sufficiently. -/
def natDigits : Nat → Nat → List Char
  | 0, _ => []
  | f + 1, n => if n < 10 then [Nat.digitChar n] else natDigits f (n / 10) ++ [Nat.digitChar (n % 10)]

/-- Decimal representation of a natural number. -/
def natToChars (n : Nat) : List Char := natDigits (n + 1) n

/-- Decimal representation of an integer (JavaScript `String(number)` for the
integral numbers this engine produces). -/
def intToChars : Int → List Char
  | .ofNat n => natToChars n
  | .negSucc n => '-' :: natToChars (n + 1)

/- JavaScript `String(value)` coercion.  Arrays stringify as their elements
joined with commas, with null elements becoming empty (Array.prototype.join);
plain objects stringify as the usual object tag. -/
mutual
def valueToString : Value → String
  | .str s => s
  | .num n => String.mk (intToChars n)
  | .bool b => if b then "true" else "false"
  | .null => "null"
  | .obj _ => "[object Object]"
  | .arr items => joinValues items
def joinValues : Values → String
  | .nil => ""
  | .cons .null .nil => ""
  | .cons v .nil => valueToString v
  | .cons .null tail => "," ++ joinValues tail
  | .cons v tail => valueToString v ++ "," ++ joinValues tail
end

/-- JavaScript truthiness, `Boolean(value)`. -/
def jsTruthy : Value → Bool
  | .str s => s ≠ ""
  | .num n => n ≠ 0
  | .bool b => b
  | .null => false
  | .obj _ => true
  | .arr _ => true

/-- Truthiness of a possibly-undefined value. -/
def jsTruthyOpt : Option Value → Bool
  | none => false
  | some v => jsTruthy v

/-- JavaScript property access `v[key]` for the key shapes reachable from the
engine: object fields, array `length` and canonical decimal indices, string
`length` and indices.  Everything else is `undefined`. -/
def getKey (v : Value) (key : String) : Option Value :=
  match v with
  | .obj fields => lookupField fields key
  | .arr items =>
    if key = "length" then some (.num items.length)
    else
      match key.data with
      | [] => none
      | d :: ds =>
        match parseCanonicalNat (d :: ds) with
        | some n => items.get? n
        | none => none
  | .str s =>
    if key = "length" then some (.num s.length)
    else
      match key.data with
      | [] => none
      | d :: ds =>
        match parseCanonicalNat (d :: ds) with
        | some n => (s.data.get? n).map (fun c => .str (String.mk [c]))
        | none => none
  | _ => none
where
  /-- Parse a canonical (no leading zero except "0" itself) decimal index. -/
  parseCanonicalNat (l : List Char) : Option Nat :=
    if l.all (fun c => '0' ≤ c && c ≤ '9') && l ≠ [] && (l.head? ≠ some '0' || l = ['0']) then
      some (l.foldl (fun acc c => acc * 10 + (c.toNat - '0'.toNat)) 0)
    else none

/-- One step of the optional-chaining fold in `getNestedValue`:
`current?.[key]` is `undefined` when `current` is `undefined` or `null`. -/
def optChainStep (cur : Option Value) (key : String) : Option Value :=
  match cur with
  | none => none
  | some .null => none
  | some v => getKey v key

/-- Model of `getNestedValue(obj, path)` from src/utils/index.ts:
`path.split(".").reduce((current, key) => current?.[key], obj)`. -/
def getNestedValue (v : Value) (path : List Char) : Option Value :=
  (splitOnChar '.' path).foldl (fun cur key => optChainStep cur (String.mk key)) (some v)

/-- Result of invoking a helper function: a returned value (possibly the
JavaScript `undefined`, as `ok none`) or a thrown exception. -/
inductive HRes where
  | ok (v : Option Value)
  | thrown

/-- A template helper: receives the render context and the split, trimmed
argument strings (as character lists).  The helper regex guarantees at least
one argument at every call site inside the engine. -/
def HelperFn : Type := Value → List (List Char) → HRes

/-- The helper table of a `TemplateEngine` instance. -/
def Registry : Type := List (String × HelperFn)

/-- Model of `TemplateEngine.registerHelper`; a later registration of the same
name shadows the earlier one. -/
def registerHelper (hs : Registry) (name : String) (fn : HelperFn) : Registry :=
  (name, fn) :: hs

/-- Lookup in the helper table. -/
def lookupHelper : Registry → String → Option HelperFn
  | [], _ => none
  | (k, fn) :: rest, name => if k = name then some fn else lookupHelper rest name

/-- String produced when the replacement callback result is coerced by
`String.prototype.replace` (a helper returning `undefined` becomes the literal
text "undefined"). -/
def jsDisplay : Option Value → String
  | none => "undefined"
  | some v => valueToString v

/-- Value of `x || ''` followed by template-literal coercion, as used for
`context.baseUrl` and `context.langPrefix` in the url and asset helpers. -/
def orEmptyString (v : Option Value) : List Char :=
  match v with
  | some w => if jsTruthy w then (valueToString w).data else []
  | none => []

/-- The translate helper: with no (or falsy) locale dictionary return the key;
otherwise look the key up as a dotted path and return it when the result is
falsy.  The key is the first split argument (the helper regex guarantees one
argument at engine call sites). -/
def translateHelper : HelperFn := fun ctx args =>
  let key := args.headD []
  match getKey ctx "localeData" with
  | some ld =>
    if jsTruthy ld then
      let translation := getNestedValue ld key
      if jsTruthyOpt translation then .ok translation
      else .ok (some (.str (String.mk key)))
    else .ok (some (.str (String.mk key)))
  | none => .ok (some (.str (String.mk key)))

/-- The t helper is registered as an alias that calls `this.helpers.translate`;
with the default table that is exactly `translateHelper`. -/
def tHelper : HelperFn := fun ctx args => translateHelper ctx [args.headD []]

/-- Shared computation of
`context.currentLang || context.config.i18n?.defaultLocale || 'de'`.
Accessing `.i18n` on a missing or null `config` throws in JavaScript, which the
engine catches at the dispatch site. -/
def currentLangValue (ctx : Value) : HRes :=
  let cl := getKey ctx "currentLang"
  if jsTruthyOpt cl then .ok cl
  else
    match getKey ctx "config" with
    | none => .thrown
    | some .null => .thrown
    | some cfg =>
      let dl := match getKey cfg "i18n" with
        | none => none
        | some .null => none
        | some i => getKey i "defaultLocale"
      if jsTruthyOpt dl then .ok dl else .ok (some (.str "de"))

/-- The currentLang helper. -/
def currentLangHelper : HelperFn := fun ctx _ => currentLangValue ctx

/-- The langPrefix helper: `context.langPrefix || ''`. -/
def langPrefixHelper : HelperFn := fun ctx _ =>
  let lp := getKey ctx "langPrefix"
  if jsTruthyOpt lp then .ok lp else .ok (some (.str ""))

/-- Value of `context.activeNav || context.slug`. -/
def activeNavValue (ctx : Value) : Option Value :=
  let an := getKey ctx "activeNav"
  if jsTruthyOpt an then an else getKey ctx "slug"

/-- String-concatenation coercion `"/" + value` (undefined becomes the literal
text "undefined"). -/
def concatCoerce (v : Option Value) : List Char :=
  match v with
  | none => "undefined".data
  | some w => (valueToString w).data

/-- The active helper: compare the target path and the current navigation path
after normalising both to a trailing slash. -/
def activeHelper : HelperFn := fun ctx args =>
  let path := args.headD []
  let currentPath := '/' :: concatCoerce (activeNavValue ctx)
  let normalizedPath := if path.getLast? = some '/' then path else path ++ ['/']
  let normalizedCurrent := if currentPath.getLast? = some '/' then currentPath else currentPath ++ ['/']
  let isActive := normalizedCurrent = normalizedPath ||
    (normalizedPath = ['/'] && normalizedCurrent = ['/'])
  if isActive then
    match args.get? 1 with
    | some cc => if cc ≠ [] then .ok (some (.str (String.mk cc))) else .ok (some (.str "active"))
    | none => .ok (some (.str "active"))
  else .ok (some (.str ""))

/-- The langActive helper: case-insensitive comparison of the argument with the
current language; a non-string current language would throw on toLowerCase. -/
def langActiveHelper : HelperFn := fun ctx args =>
  let lang := args.headD []
  match currentLangValue ctx with
  | .thrown => .thrown
  | .ok (some (.str s)) =>
    if s.data.map Char.toLower = lang.map Char.toLower then
      match args.get? 1 with
      | some cc => if cc ≠ [] then .ok (some (.str (String.mk cc))) else .ok (some (.str "active"))
      | none => .ok (some (.str "active"))
    else .ok (some (.str ""))
  | .ok _ => .thrown

/-- The icon helper: markup fragment selected by `context.config.icons`
(a missing or null config throws on the property access). -/
def iconHelper : HelperFn := fun ctx args =>
  let name := args.headD []
  let classes := args.drop 1
  match getKey ctx "config" with
  | none => .thrown
  | some .null => .thrown
  | some cfg =>
    let joined := String.mk (List.intercalate [' '] classes)
    let isLucide : Bool := match getKey cfg "icons" with
      | some (.str s) => s = "lucide"
      | _ => false
    if isLucide then
      let classStr := if classes.length > 0 then " class=\"" ++ joined ++ "\"" else ""
      .ok (some (.str ("<i data-lucide=\"" ++ String.mk name ++ "\"" ++ classStr ++ "></i>")))
    else
      let classStr := if classes.length > 0 then " " ++ joined else ""
      .ok (some (.str ("<i class=\"fa fa-" ++ String.mk name ++ classStr ++ "\"></i>")))

/-- The url helper from src/core/template-engine.ts lines 220-229: normalise
the path to a leading slash, strip one trailing slash unless the path is
exactly the root, then concatenate baseUrl, langPrefix and the path.  Note
that the root path is NOT exempted from the langPrefix concatenation. -/
def urlHelper : HelperFn := fun ctx args =>
  let path := args.headD []
  let baseUrl := orEmptyString (getKey ctx "baseUrl")
  let pfx := orEmptyString (getKey ctx "langPrefix")
  let normalizedPath := if path.head? = some '/' then path else '/' :: path
  let finalPath :=
    if normalizedPath ≠ ['/'] && normalizedPath.getLast? = some '/' then
      normalizedPath.dropLast
    else normalizedPath
  .ok (some (.str (String.mk (baseUrl ++ pfx ++ finalPath))))

/-- The asset helper: baseUrl plus slash-normalised path, no locale prefix. -/
def assetHelper : HelperFn := fun ctx args =>
  let path := args.headD []
  let baseUrl := orEmptyString (getKey ctx "baseUrl")
  let normalizedPath := if path.head? = some '/' then path else '/' :: path
  .ok (some (.str (String.mk (baseUrl ++ normalizedPath))))

/-- The year helper calls `new Date().getFullYear().toString()`; the wall-clock
year is a parameter of the embedding. -/
def yearHelper (year : String) : HelperFn := fun _ _ => .ok (some (.str year))

/-- Escape a character for a JSON string literal. -/
def jsonEscChar (c : Char) : List Char :=
  if c = '"' then ['\\', '"']
  else if c = '\\' then ['\\', '\\']
  else if c = '\n' then ['\\', 'n']
  else if c = '\x0d' then ['\\', 'r']
  else if c = '\t' then ['\\', 't']
  else if c = '\x08' then ['\\', 'b']
  else if c = '\x0c' then ['\\', 'f']
  else if c.toNat < 32 then
    '\\' :: 'u' :: '0' :: '0' :: [Nat.digitChar (c.toNat / 16), Nat.digitChar (c.toNat % 16)]
  else [c]

/-- Quoted and escaped JSON string literal. -/
def jsonQuote (s : String) : String :=
  String.mk ('"' :: s.data.foldr (fun c acc => jsonEscChar c ++ acc) ['"'])

/- JSON.stringify for the defined values (undefined is handled by the caller). -/
mutual
def jsonString : Value → String
  | .str s => jsonQuote s
  | .num n => String.mk (intToChars n)
  | .bool b => if b then "true" else "false"
  | .null => "null"
  | .obj fs => "\x7b" ++ jsonFields fs ++ "\x7d"
  | .arr vs => "[" ++ jsonItems vs ++ "]"
def jsonFields : Fields → String
  | .nil => ""
  | .cons k v .nil => jsonQuote k ++ ":" ++ jsonString v
  | .cons k v rest => jsonQuote k ++ ":" ++ jsonString v ++ "," ++ jsonFields rest
def jsonItems : Values → String
  | .nil => ""
  | .cons v .nil => jsonString v
  | .cons v rest => jsonString v ++ "," ++ jsonItems rest
end

/-- The json helper: the argument is always a string at engine call sites, so
it is resolved as a context path and the result serialised;
`JSON.stringify(undefined)` is `undefined`. -/
def jsonHelper : HelperFn := fun ctx args =>
  let data := args.headD []
  match getNestedValue ctx data with
  | none => .ok none
  | some v => .ok (some (.str (jsonString v)))

/-- Global replacement of a single character. -/
def replaceChar (c : Char) (repl : List Char) : List Char → List Char
  | [] => []
  | x :: xs => (if x = c then repl else [x]) ++ replaceChar c repl xs

/-- Global replacement of a two-character pattern (matches do not overlap and
the search resumes after each replacement). -/
def replacePair (a b : Char) (repl : List Char) : List Char → List Char
  | [] => []
  | [x] => [x]
  | x :: y :: xs =>
    if x = a && y = b then repl ++ replacePair a b repl xs
    else x :: replacePair a b repl (y :: xs)

/-- The escape helper: resolve the argument as a context path; non-string
results give the empty string; otherwise apply the source sequence of global
replaces (the five HTML entities, then both brace pairs). -/
def escapeHelper : HelperFn := fun ctx args =>
  let text := args.headD []
  match getNestedValue ctx text with
  | some (.str s) =>
    .ok (some (.str (String.mk (
      replacePair '}' '}' "&#125;&#125;".data (
        replacePair '{' '{' "&#123;&#123;".data (
          replaceChar '\x27' "&#39;".data (
            replaceChar '"' "&quot;".data (
              replaceChar '>' "&gt;".data (
                replaceChar '<' "&lt;".data (
                  replaceChar '&' "&amp;".data s.data))))))))))
  | _ => .ok (some (.str ""))

/-- The default helper table, built by the source sequence of
`registerHelper` calls in `registerDefaultHelpers`. -/
def defaultHelpers (year : String) : Registry :=
  List.foldl (fun hs nf => registerHelper hs nf.1 nf.2) []
    [("translate", translateHelper),
     ("t", tHelper),
     ("currentLang", currentLangHelper),
     ("langPrefix", langPrefixHelper),
     ("active", activeHelper),
     ("langActive", langActiveHelper),
     ("icon", iconHelper),
     ("url", urlHelper),
     ("asset", assetHelper),
     ("year", yearHelper year),
     ("json", jsonHelper),
     ("escape", escapeHelper)]

/-- Literal token: the opening of an if tag. -/
def openIf : List Char := ['{', '{', '#', 'i', 'f']

/-- Literal token: the if-closing tag. -/
def closeIf : List Char := ['{', '{', '/', 'i', 'f', '}', '}']

/-- Literal token: the else marker. -/
def elseMarker : List Char := ['{', '{', '#', 'e', 'l', 's', 'e', '}', '}']

/-- Literal token: the opening of an each tag. -/
def openEach : List Char := ['{', '{', '#', 'e', 'a', 'c', 'h']

/-- Literal token: the each-closing tag. -/
def closeEach : List Char := ['{', '{', '/', 'e', 'a', 'c', 'h', '}', '}']

/-- Literal token: two closing braces. -/
def twoBraces : List Char := ['}', '}']

/-- Literal token: two opening braces. -/
def twoOpenBraces : List Char := ['{', '{']

/-- First occurrence of a literal pattern: returns the text before the pattern
and the text after it.  This is the semantics of a lazy `[\s\S]*?` capture
followed by the literal. -/
def findSub (pat : List Char) : List Char → Option (List Char × List Char)
  | [] => if pat.isEmpty then some ([], []) else none
  | c :: cs =>
    if pat.isPrefixOf (c :: cs) then some ([], (c :: cs).drop pat.length)
    else (findSub pat cs).map (fun pr => (c :: pr.1, pr.2))

/-- Scan the content after an if head for the lazily matched true branch, the
optional else branch and the text after the closing tag.  The regex engine
extends the lazy true branch until the first position where the greedy optional
else group or the closing literal matches (they can never match at the same
position); an else marker with no closing tag anywhere after it makes the whole
match attempt fail, exactly as in the backtracking engine. -/
def scanIfBody : List Char → Option (List Char × List Char × List Char)
  | [] => none
  | c :: cs =>
    if elseMarker.isPrefixOf (c :: cs) then
      (findSub closeIf ((c :: cs).drop 9)).map (fun pr => ([], pr.1, pr.2))
    else if closeIf.isPrefixOf (c :: cs) then
      some ([], [], (c :: cs).drop 7)
    else
      (scanIfBody cs).map (fun tfr => (c :: tfr.1, tfr.2.1, tfr.2.2))

/-- Match of the conditional regex
`\{\{#if\s+([^}]+)\}\}([\s\S]*?)(?:\{\{#else\}\}([\s\S]*?))?\{\{\/if\}\}`
anchored at the start of the list; returns the raw condition capture, the true
branch, the false branch (empty when the else group is absent) and the text
after the match.  After the literal head, the greedy `\s+` and `[^}]+` resolve
to: with `m` the maximal run of non-brace characters, `\s+` consumes
`min wsRun (m.length - 1)` characters (backtracking returns whitespace to the
condition capture only when the capture would otherwise be empty), which must
be at least one. -/
def matchIfAt (l : List Char) : Option (List Char × List Char × List Char × List Char) :=
  if openIf.isPrefixOf l then
    let after := l.drop 5
    let m := after.takeWhile (fun c => c != '}')
    let k := min (m.takeWhile isJsWs).length (m.length - 1)
    if 1 ≤ k then
      let rest1 := after.drop m.length
      if twoBraces.isPrefixOf rest1 then
        (scanIfBody (rest1.drop 2)).map (fun tfr => (m.drop k, tfr.1, tfr.2.1, tfr.2.2))
      else none
    else none
  else none

/-- Match of the loop regex `\{\{#each\s+([^}]+)\}\}([\s\S]*?)\{\{\/each\}\}`
anchored at the start of the list; returns the raw path capture, the body and
the text after the match. -/
def matchEachAt (l : List Char) : Option (List Char × List Char × List Char) :=
  if openEach.isPrefixOf l then
    let after := l.drop 7
    let m := after.takeWhile (fun c => c != '}')
    let k := min (m.takeWhile isJsWs).length (m.length - 1)
    if 1 ≤ k then
      let rest1 := after.drop m.length
      if twoBraces.isPrefixOf rest1 then
        (findSub closeEach (rest1.drop 2)).map (fun pr => (m.drop k, pr.1, pr.2))
      else none
    else none
  else none

/-- Match of the helper regex `\{\{([a-zA-Z0-9_]+):([^}]+)\}\}` anchored at the
start of the list; returns the helper name, the raw argument text and the text
after the match. -/
def matchHelperAt (l : List Char) : Option (List Char × List Char × List Char) :=
  if twoOpenBraces.isPrefixOf l then
    let after := l.drop 2
    let name := after.takeWhile isWordChar
    if name.isEmpty then none
    else
      match after.drop name.length with
      | ':' :: rest2 =>
        let args := rest2.takeWhile (fun c => c != '}')
        if args.isEmpty then none
        else if twoBraces.isPrefixOf (rest2.drop args.length) then
          some (name, args, (rest2.drop args.length).drop 2)
        else none
      | _ => none
  else none

/-- Match of the variable regex `\{\{([a-zA-Z0-9_.]+)\}\}` anchored at the
start of the list; returns the dotted path and the text after the match. -/
def matchVarAt (l : List Char) : Option (List Char × List Char) :=
  if twoOpenBraces.isPrefixOf l then
    let after := l.drop 2
    let name := after.takeWhile isVarChar
    if name.isEmpty then none
    else if twoBraces.isPrefixOf (after.drop name.length) then
      some (name, (after.drop name.length).drop 2)
    else none
  else none

/-- Truthiness used by `evaluateCondition`: arrays are truthy exactly when
non-empty; everything else uses `Boolean(value)`. -/
def condTruthy : Option Value → Bool
  | some (.arr .nil) => false
  | some (.arr (.cons _ _)) => true
  | v => jsTruthyOpt v

/-- Model of `TemplateEngine.evaluateCondition`: a leading `!` negates
recursively (without re-trimming), otherwise the condition is resolved as a
dotted path and its truthiness taken. -/
def evaluateCondition (ctx : Value) : List Char → Bool
  | '!' :: rest => !(evaluateCondition ctx rest)
  | cond => condTruthy (getNestedValue ctx cond)

/-- One global-replace pass of the conditional regex.  The `skip` state
implements the resumption of the scan after the end of the previous match; a
replacement is emitted without being rescanned in the same pass. -/
def ifPass (ctx : Value) : List Char → Nat → List Char
  | [], _ => []
  | _ :: cs, skip + 1 => ifPass ctx cs skip
  | c :: cs, 0 =>
    match matchIfAt (c :: cs) with
    | some (cond, tBr, fBr, rest) =>
      (if evaluateCondition ctx (jsTrimChars cond) then tBr else fBr) ++
        ifPass ctx cs (cs.length - rest.length)
    | none => c :: ifPass ctx cs 0

/-- Model of `ifRegex.test(output)`: some position carries a full match. -/
def ifTest : List Char → Bool
  | [] => false
  | c :: cs => (matchIfAt (c :: cs)).isSome || ifTest cs

/-- The while loop of `processConditionals`, with an explicit iteration budget:
while the output changed and a conditional still matches, run one more
global-replace pass. -/
def condLoopF (ctx : Value) : Nat → List Char → List Char → List Char
  | 0, _, out => out
  | f + 1, prev, out =>
    if out ≠ prev ∧ ifTest out then condLoopF ctx f out (ifPass ctx out 0) else out

/-- Model of `TemplateEngine.processConditionals`; the budget `length + 1`
dominates the iteration count because every iteration with a match strictly
shortens the output (proved for claim C5). -/
def processConditionals (ctx : Value) (l : List Char) : List Char :=
  condLoopF ctx (l.length + 1) [] l

/-- Original text of a helper tag, as restored when dispatch fails. -/
def helperTag (name args : List Char) : List Char :=
  '{' :: '{' :: (name ++ ':' :: (args ++ ['}', '}']))

/-- Replacement for one helper tag: unknown helper names and thrown helper
exceptions yield the original tag text; a returned value is coerced to text
by `String.prototype.replace`. -/
def helperReplacement (hs : Registry) (ctx : Value) (name args : List Char) : List Char :=
  match lookupHelper hs (String.mk name) with
  | none => helperTag name args
  | some fn =>
    match fn ctx ((splitOnChar ',' args).map jsTrimChars) with
    | .ok v => (jsDisplay v).data
    | .thrown => helperTag name args

/-- One global-replace pass of the helper regex
(`TemplateEngine.processHelpers`). -/
def helperPass (hs : Registry) (ctx : Value) : List Char → Nat → List Char
  | [], _ => []
  | _ :: cs, skip + 1 => helperPass hs ctx cs skip
  | c :: cs, 0 =>
    match matchHelperAt (c :: cs) with
    | some (name, args, rest) =>
      helperReplacement hs ctx name args ++ helperPass hs ctx cs (cs.length - rest.length)
    | none => c :: helperPass hs ctx cs 0

/-- Replacement for one variable tag: undefined and null render empty, all
other values by their string coercion. -/
def varReplacement (ctx : Value) (path : List Char) : List Char :=
  match getNestedValue ctx (jsTrimChars path) with
  | none => []
  | some .null => []
  | some v => (valueToString v).data

/-- One global-replace pass of the variable regex
(`TemplateEngine.processVariables`). -/
def varPass (ctx : Value) : List Char → Nat → List Char
  | [], _ => []
  | _ :: cs, skip + 1 => varPass ctx cs skip
  | c :: cs, 0 =>
    match matchVarAt (c :: cs) with
    | some (name, rest) => varReplacement ctx name ++ varPass ctx cs (cs.length - rest.length)
    | none => c :: varPass ctx cs 0

/-- Object fields contributed by a JavaScript object spread `{...v}`: object
fields themselves, index-keyed entries for strings and arrays, nothing for
primitives and null. -/
def indexedValues : Values → Nat → Fields
  | .nil, _ => .nil
  | .cons v tail, i => .cons (String.mk (natToChars i)) v (indexedValues tail (i + 1))

/-- Index-keyed fields of a string spread. -/
def indexedChars : List Char → Nat → Fields
  | [], _ => .nil
  | c :: cs, i => .cons (String.mk (natToChars i)) (.str (String.mk [c])) (indexedChars cs (i + 1))

/-- Fields contributed by spreading a value into an object literal. -/
def spreadFields : Value → Fields
  | .obj fs => fs
  | .arr items => indexedValues items 0
  | .str s => indexedChars s.data 0
  | _ => .nil

/-- The three loop metadata bindings added for element `i` of `n`. -/
def metaFields (i n : Nat) : Fields :=
  .cons "@index" (.num i)
    (.cons "@first" (.bool (i == 0))
      (.cons "@last" (.bool (i == n - 1)) .nil))

/-- The loop-local context `{...context, ...item, '@index': i, '@first': ...,
'@last': ...}`; under first-binding-wins lookup the later spreads are the
earlier list segments, so metadata shadows element fields which shadow the
outer context. -/
def loopContext (ctx item : Value) (i n : Nat) : Value :=
  .obj (Fields.append (metaFields i n) (Fields.append (spreadFields item) (spreadFields ctx)))

/- The render pipeline (`TemplateEngine.render`): conditionals, loops, helpers,
variables, in this order; loop bodies are rendered recursively under the
loop-local context.  The mutual recursion is driven by an explicit budget that
every call decrements, instantiated generously by `render` below; the budget
only limits the loop-nesting work, and all concrete evaluations in this file
complete far below it. -/
mutual
def renderF (hs : Registry) : Nat → Value → List Char → List Char
  | 0, _, l => l
  | f + 1, ctx, l =>
    varPass ctx (helperPass hs ctx (eachPassF hs f ctx (processConditionals ctx l) 0) 0) 0
def eachPassF (hs : Registry) : Nat → Value → List Char → Nat → List Char
  | 0, _, l, _ => l
  | _ + 1, _, [], _ => []
  | f + 1, ctx, _ :: cs, skip + 1 => eachPassF hs f ctx cs skip
  | f + 1, ctx, c :: cs, 0 =>
    match matchEachAt (c :: cs) with
    | some (pathExpr, body, rest) =>
      (match getNestedValue ctx (jsTrimChars pathExpr) with
       | some (.arr items) => expandLoop hs f ctx body items 0 items.length
       | _ => []) ++ eachPassF hs f ctx cs (cs.length - rest.length)
    | none => c :: eachPassF hs f ctx cs 0
def expandLoop (hs : Registry) : Nat → Value → List Char → Values → Nat → Nat → List Char
  | 0, _, _, _, _, _ => []
  | _ + 1, _, _, .nil, _, _ => []
  | f + 1, ctx, body, .cons item tail, i, n =>
    renderF hs f (loopContext ctx item i n) body ++ expandLoop hs f ctx body tail (i + 1) n
end

/-- Model of `TemplateEngine.processLoops` at a given recursion budget. -/
def processLoops (hs : Registry) (fuel : Nat) (ctx : Value) (l : List Char) : List Char :=
  eachPassF hs fuel ctx l 0

/-- Model of `TemplateEngine.processHelpers`. -/
def processHelpers (hs : Registry) (ctx : Value) (l : List Char) : List Char :=
  helperPass hs ctx l 0

/-- Model of `TemplateEngine.processVariables`. -/
def processVariables (ctx : Value) (l : List Char) : List Char :=
  varPass ctx l 0

/-- Model of `TemplateEngine.render` for an engine with helper table `hs`. -/
def render (hs : Registry) (ctx : Value) (template : String) : String :=
  String.mk (renderF hs ((template.length + 2) * (template.length + 2)) ctx template.data)

/-- Render with the default helper table (a freshly constructed engine), the
wall-clock year being the parameter of the year helper. -/
def renderDefault (year : String) (ctx : Value) (template : String) : String :=
  render (defaultHelpers year) ctx template

/-- The i18n section of the project configuration as typed in src/types
(`strategy` is carried as the raw string, optional to mirror the defensive
`|| 'prefix_except_default'` in the source). -/
structure I18nConfig where
  defaultLocale : String
  locales : List String
  strategy : Option String

/-- Model of `Builder.getLangPrefix` from src/core/builder.ts lines 893-905:
no i18n configuration gives the empty prefix; otherwise the strategy defaults
to prefix_except_default, under which the default locale gets the empty prefix;
every other case gets a slash and the locale. -/
def getLangPrefix (i18n : Option I18nConfig) (locale defaultLocale : String) : String :=
  match i18n with
  | none => ""
  | some cfg =>
    let strategy := match cfg.strategy with
      | some s => if s = "" then "prefix_except_default" else s
      | none => "prefix_except_default"
    if strategy = "prefix_except_default" ∧ locale = defaultLocale then ""
    else "/" ++ locale

/-- Project configuration value used by the concrete render contexts below:
i18n with default locale en, locales en, de, fr, strategy
prefix_except_default (the configuration of the url helper test suite). -/
def cfgPed : Value :=
  .obj (Fields.ofList
    [("i18n", .obj (Fields.ofList
      [("defaultLocale", .str "en"),
       ("locales", .arr (Values.ofList [.str "en", .str "de", .str "fr"])),
       ("strategy", .str "prefix_except_default")]))])

/-- Render context of the url root-path regression test: German locale with
computed prefix "/de" and empty base URL. -/
def ctxUrlDe : Value :=
  .obj (Fields.ofList
    [("config", cfgPed),
     ("currentLang", .str "de"),
     ("langPrefix", .str "/de"),
     ("baseUrl", .str "")])

/-- The nested conditional template of claim C2. -/
def nestedIfTpl : String :=
  "\x7b\x7b#if a\x7d\x7d\x7b\x7b#if b\x7d\x7dX\x7b\x7b/if\x7d\x7d\x7b\x7b/if\x7d\x7d"

/-- The loop template of claim C6. -/
def eachTpl : String :=
  "\x7b\x7b#each items\x7d\x7d\x7b\x7bname\x7d\x7d-\x7b\x7b/each\x7d\x7d"

/-- Context with items = two named records, for claim C6. -/
def itemsCtx : Value :=
  .obj (Fields.ofList
    [("items", .arr (Values.ofList
      [.obj (Fields.ofList [("name", .str "a")]),
       .obj (Fields.ofList [("name", .str "b")])]))])

/-- Context whose locale dictionary has an entry with the empty key mapping to
the empty string, for claim C10. -/
def ctxEmptyEntry : Value :=
  .obj (Fields.ofList [("localeData", .obj (Fields.cons "" (.str "") .nil))])

/-- C1: the claim (with the spec and the url-helper test suite) states that the
root path never receives the locale prefix, so rendering the url tag for "/"
with langPrefix "/de" must give baseUrl ++ "/".  The engine has no root-path
case: `urlHelper` concatenates baseUrl, prefix and the normalised path
unconditionally, so the render yields "/de/" instead of "/".  This theorem
evaluates the code at the failing input of the claim (the regression test at
src/core template tests lines 151-163 expects "/"). -/
theorem C1_url_root_gets_lang_prefix :
    urlHelper ctxUrlDe [['/']] = .ok (some (.str "/de/")) ∧
    renderDefault "2025" ctxUrlDe "\x7b\x7burl:/\x7d\x7d" = "/de/" ∧
    renderDefault "2025" ctxUrlDe "\x7b\x7burl:/about\x7d\x7d" = "/de/about" :=
  ⟨rfl, rfl, rfl⟩

/-- C2: the claim states that the nested conditional template renders "X" when
both conditions are truthy, "" when only the outer one is, and "" when the
outer one is falsy.  The first two cases hold, but with a falsy outer condition
the lazy regex consumes the inner closing tag, so the render leaves the
stray text of one closing if tag in the output instead of the empty string.
This theorem evaluates the code at the failing input of the claim. -/
theorem C2_nested_if_falsy_outer_leaves_closer :
    renderDefault "2025" (.obj (Fields.ofList [("a", .bool false), ("b", .bool true)]))
      nestedIfTpl = "\x7b\x7b/if\x7d\x7d" ∧
    renderDefault "2025" (.obj (Fields.ofList [("a", .bool false), ("b", .bool false)]))
      nestedIfTpl = "\x7b\x7b/if\x7d\x7d" ∧
    renderDefault "2025" (.obj (Fields.ofList [("a", .bool true), ("b", .bool true)]))
      nestedIfTpl = "X" ∧
    renderDefault "2025" (.obj (Fields.ofList [("a", .bool true), ("b", .bool false)]))
      nestedIfTpl = "" :=
  ⟨rfl, rfl, rfl, rfl⟩

/-- C3: the locale URL prefix is empty when i18n is disabled; under strategy
prefix_except_default it is empty for the default locale and "/" ++ locale
otherwise; under strategy prefix it is "/" ++ locale unconditionally. -/
theorem C3_getLangPrefix_cases (locale dl : String) (cfg : I18nConfig) :
    getLangPrefix none locale dl = "" ∧
    (cfg.strategy = some "prefix_except_default" → locale = dl →
      getLangPrefix (some cfg) locale dl = "") ∧
    (cfg.strategy = some "prefix_except_default" → locale ≠ dl →
      getLangPrefix (some cfg) locale dl = "/" ++ locale) ∧
    (cfg.strategy = some "prefix" →
      getLangPrefix (some cfg) locale dl = "/" ++ locale) := by
  refine ⟨rfl, ?_, ?_, ?_⟩
  · intro hs hl
    simp [getLangPrefix, hs, hl]
  · intro hs hl
    simp [getLangPrefix, hs, hl]
  · intro hs
    simp [getLangPrefix, hs]

/-- Witness for C3 at concrete inputs. -/
theorem C3_getLangPrefix_cases_witness :
    getLangPrefix (some ⟨"en", ["en", "de"], some "prefix_except_default"⟩) "en" "en" = "" ∧
    getLangPrefix (some ⟨"en", ["en", "de"], some "prefix_except_default"⟩) "de" "en" = "/de" ∧
    getLangPrefix (some ⟨"en", ["en", "de"], some "prefix"⟩) "en" "en" = "/en" ∧
    getLangPrefix none "de" "en" = "" :=
  ⟨(C3_getLangPrefix_cases "en" "en" _).2.1 rfl rfl,
   (C3_getLangPrefix_cases "de" "en" _).2.2.1 rfl (by decide),
   (C3_getLangPrefix_cases "en" "en" _).2.2.2 rfl,
   (C3_getLangPrefix_cases "de" "en" ⟨"en", ["en", "de"], some "prefix"⟩).1⟩

/-- C9: the loop metadata keys cannot be addressed by any tag: a tag whose
content starts with the at sign matches neither the variable pattern (whose
class has no at sign) nor the helper pattern (whose name class has no at
sign), so the three metadata tags survive every render verbatim. -/
theorem C9_loop_metadata_tags_unreachable :
    (∀ l : List Char, matchVarAt ('{' :: '{' :: '@' :: l) = none) ∧
    (∀ l : List Char, matchHelperAt ('{' :: '{' :: '@' :: l) = none) ∧
    (∀ (y : String) (ctx : Value),
      renderDefault y ctx "\x7b\x7b@index\x7d\x7d" = "\x7b\x7b@index\x7d\x7d" ∧
      renderDefault y ctx "\x7b\x7b@first\x7d\x7d" = "\x7b\x7b@first\x7d\x7d" ∧
      renderDefault y ctx "\x7b\x7b@last\x7d\x7d" = "\x7b\x7b@last\x7d\x7d") := by
  refine ⟨?_, ?_, ?_⟩
  · intro l
    simp [matchVarAt, twoOpenBraces, isVarChar, isWordChar]
  · intro l
    simp [matchHelperAt, twoOpenBraces, isWordChar]
  · intro y ctx
    exact ⟨rfl, rfl, rfl⟩

/-- C7: the translate helper (and its alias t) returns the key verbatim when
the context carries no (or a falsy) locale dictionary, and when the dotted-path
lookup of the key in the dictionary is absent; the t helper delegates to
translate; e.g. the tag for translate of missing.key renders the literal text
missing.key. -/
theorem C7_translate_missing_returns_key :
    (∀ (ctx : Value) (key : List Char) (rest : List (List Char)),
      jsTruthyOpt (getKey ctx "localeData") = false →
        translateHelper ctx (key :: rest) = .ok (some (.str (String.mk key)))) ∧
    (∀ (ctx ld : Value) (key : List Char) (rest : List (List Char)),
      getKey ctx "localeData" = some ld → jsTruthy ld = true →
      getNestedValue ld key = none →
        translateHelper ctx (key :: rest) = .ok (some (.str (String.mk key)))) ∧
    (∀ (ctx : Value) (key : List Char) (rest : List (List Char)),
      tHelper ctx (key :: rest) = translateHelper ctx [key]) ∧
    renderDefault "2025" (.obj .nil) "\x7b\x7btranslate:missing.key\x7d\x7d" = "missing.key" ∧
    renderDefault "2025" (.obj .nil) "\x7b\x7bt:missing.key\x7d\x7d" = "missing.key" := by
  refine ⟨?_, ?_, ?_, rfl, rfl⟩
  · intro ctx key rest h
    unfold translateHelper
    simp only [List.headD]
    cases hk : getKey ctx "localeData" with
    | none => rfl
    | some ld =>
      rw [hk] at h
      simp only [jsTruthyOpt] at h
      simp [h]
  · intro ctx ld key rest hk ht hm
    unfold translateHelper
    simp [hk, ht, hm, jsTruthyOpt]
  · intro ctx key rest
    rfl

/-- Witness for C7 at concrete inputs. -/
theorem C7_translate_missing_returns_key_witness :
    translateHelper (.obj .nil) ["missing.key".data] = .ok (some (.str "missing.key")) ∧
    translateHelper ctxEmptyEntry ["nav.home".data] = .ok (some (.str "nav.home")) :=
  ⟨C7_translate_missing_returns_key.1 (.obj .nil) "missing.key".data [] (by decide),
   C7_translate_missing_returns_key.2.1 ctxEmptyEntry
     (.obj (Fields.cons "" (.str "") .nil)) "nav.home".data [] rfl rfl rfl⟩

/-- C10 counterexample: the second half of the claim states that a translation
entry that exists but maps to the empty string can never render as the empty
string; with the empty key this fails: the dictionary of `ctxEmptyEntry` has
an entry (the empty key) mapping to the empty string, and the translate tag
whose trimmed argument is that key renders as the empty string. -/
theorem C10_empty_key_entry_renders_empty :
    lookupField (Fields.cons "" (.str "") .nil) "" = some (.str "") ∧
    translateHelper ctxEmptyEntry [[]] = .ok (some (.str "")) ∧
    renderDefault "2025" ctxEmptyEntry "\x7b\x7btranslate: \x7d\x7d" = "" :=
  ⟨rfl, rfl, rfl⟩

/-- C10 as amended: whenever the dotted-path lookup of the key in the locale
dictionary yields a falsy value (empty string, zero, false, null — or is
absent), the translate helper returns the key itself rather than that value;
consequently an entry under a NONEMPTY key that maps to the empty string never
renders as the empty string, the empty key being the single exception. -/
theorem C10_translate_falsy_lookup_returns_key :
    ∀ (ctx ld : Value) (key : List Char) (rest : List (List Char)),
      getKey ctx "localeData" = some ld → jsTruthy ld = true →
      jsTruthyOpt (getNestedValue ld key) = false →
        translateHelper ctx (key :: rest) = .ok (some (.str (String.mk key))) ∧
        (key ≠ [] → translateHelper ctx (key :: rest) ≠ .ok (some (.str ""))) := by
  intro ctx ld key rest hk ht hf
  have hmain : translateHelper ctx (key :: rest) = .ok (some (.str (String.mk key))) := by
    unfold translateHelper
    simp [hk, ht, hf]
  refine ⟨hmain, ?_⟩
  intro hne hcontra
  rw [hmain] at hcontra
  have hk2 : String.mk key = "" := by
    injection hcontra with h1
    injection h1 with h2
    injection h2
  exact hne (congrArg String.data hk2)

/-- Witness for C10 as amended: an entry under the nonempty key k mapping to
the empty string makes translate return k, which is not empty. -/
theorem C10_translate_falsy_lookup_returns_key_witness :
    translateHelper (.obj (Fields.ofList [("localeData", .obj (Fields.cons "k" (.str "") .nil))]))
        ["k".data] = .ok (some (.str "k")) ∧
    translateHelper (.obj (Fields.ofList [("localeData", .obj (Fields.cons "k" (.str "") .nil))]))
        ["k".data] ≠ .ok (some (.str "")) := by
  have h := C10_translate_falsy_lookup_returns_key
    (.obj (Fields.ofList [("localeData", .obj (Fields.cons "k" (.str "") .nil))]))
    (.obj (Fields.cons "k" (.str "") .nil)) "k".data [] rfl rfl rfl
  exact ⟨h.1, h.2 (by decide)⟩

/-- Lookup distributes over field-list concatenation with left preference. -/
theorem lookupField_append (fs gs : Fields) (k : String) :
    lookupField (Fields.append fs gs) k = (lookupField fs k).or (lookupField gs k) := by
  match fs with
  | .nil => rfl
  | .cons k0 v rest =>
    by_cases h : k0 = k
    · simp [Fields.append, lookupField, h]
    · simp [Fields.append, lookupField, h, lookupField_append rest gs k]

/-- C6: a loop over a path that does not resolve to an array (absent, empty
context, or a non-array value) expands to the empty string; over an array it
renders the body once per element in order with no separator, under the
loop-local context in which loop metadata bindings shadow element fields,
which shadow the outer context. -/
theorem C6_each_loop_semantics :
    renderDefault "2025" itemsCtx eachTpl = "a-b-" ∧
    renderDefault "2025" (.obj (Fields.ofList [("items", .arr .nil)])) eachTpl = "" ∧
    renderDefault "2025" (.obj .nil) eachTpl = "" ∧
    renderDefault "2025" (.obj (Fields.ofList [("items", .str "x"), ("name", .str "n")]))
      eachTpl = "" ∧
    (∀ (ctx item : Value) (i n : Nat),
      getKey (loopContext ctx item i n) "@index" = some (.num i) ∧
      getKey (loopContext ctx item i n) "@first" = some (.bool (i == 0)) ∧
      getKey (loopContext ctx item i n) "@last" = some (.bool (i == n - 1))) ∧
    (∀ (ctx item : Value) (i n : Nat) (k : String) (v : Value),
      k ≠ "@index" → k ≠ "@first" → k ≠ "@last" →
      lookupField (spreadFields item) k = some v →
        getKey (loopContext ctx item i n) k = some v) ∧
    (∀ (ctx item : Value) (i n : Nat) (k : String),
      k ≠ "@index" → k ≠ "@first" → k ≠ "@last" →
      lookupField (spreadFields item) k = none →
        getKey (loopContext ctx item i n) k = lookupField (spreadFields ctx) k) := by
  refine ⟨rfl, rfl, rfl, rfl, ?_, ?_, ?_⟩
  · intro ctx item i n
    refine ⟨?_, ?_, ?_⟩ <;>
      simp [loopContext, getKey, lookupField_append, metaFields, lookupField]
  · intro ctx item i n k v h1 h2 h3 hv
    simp [loopContext, getKey, lookupField_append, metaFields, lookupField,
      Ne.symm h1, Ne.symm h2, Ne.symm h3, hv]
  · intro ctx item i n k h1 h2 h3 hv
    simp [loopContext, getKey, lookupField_append, metaFields, lookupField,
      Ne.symm h1, Ne.symm h2, Ne.symm h3, hv]

/-- Witness for C6 at concrete inputs: in the loop context of the second of
two elements, the element field name shadows the outer binding, the metadata
bindings are visible, and an element without the field falls through to the
outer context. -/
theorem C6_each_loop_semantics_witness :
    getKey (loopContext (.obj (Fields.cons "name" (.str "outer") .nil))
      (.obj (Fields.cons "name" (.str "b") .nil)) 1 2) "@index" = some (.num 1) ∧
    getKey (loopContext (.obj (Fields.cons "name" (.str "outer") .nil))
      (.obj (Fields.cons "name" (.str "b") .nil)) 1 2) "name" = some (.str "b") ∧
    getKey (loopContext (.obj (Fields.cons "name" (.str "outer") .nil))
      (.obj .nil) 1 2) "name" = some (.str "outer") :=
  ⟨(C6_each_loop_semantics.2.2.2.2.1 (.obj (Fields.cons "name" (.str "outer") .nil))
      (.obj (Fields.cons "name" (.str "b") .nil)) 1 2).1,
   C6_each_loop_semantics.2.2.2.2.2.1 (.obj (Fields.cons "name" (.str "outer") .nil))
      (.obj (Fields.cons "name" (.str "b") .nil)) 1 2 "name" (.str "b")
      (by decide) (by decide) (by decide) rfl,
   (C6_each_loop_semantics.2.2.2.2.2.2 (.obj (Fields.cons "name" (.str "outer") .nil))
      (.obj .nil) 1 2 "name" (by decide) (by decide) (by decide) rfl).trans rfl⟩

/-- A successful helper match contains a colon. -/
theorem colon_mem_of_matchHelperAt {l : List Char} {nar : List Char × List Char × List Char}
    (h : matchHelperAt l = some nar) : ':' ∈ l := by
  unfold matchHelperAt at h
  split at h
  case isFalse => exact absurd h (by simp)
  case isTrue hp =>
    dsimp only at h
    split at h
    case isTrue => exact absurd h (by simp)
    case isFalse hne =>
      split at h
      case h_2 => exact absurd h (by simp)
      case h_1 rest2 heq =>
        have hmem : ':' ∈ (l.drop 2).drop ((l.drop 2).takeWhile isWordChar).length := by
          rw [heq]; exact List.mem_cons_self _ _
        exact List.mem_of_mem_drop (List.mem_of_mem_drop hmem)

/-- A text without colons is left unchanged by the helper pass. -/
theorem helperPass_no_colon (hs : Registry) (ctx : Value) :
    ∀ l : List Char, (∀ c ∈ l, c ≠ ':') → helperPass hs ctx l 0 = l := by
  intro l
  induction l with
  | nil => intro _; rfl
  | cons c cs ih =>
    intro h
    cases hm : matchHelperAt (c :: cs) with
    | some nar =>
      exact absurd (colon_mem_of_matchHelperAt hm) (by
        intro hmem
        exact h ':' hmem rfl)
    | none =>
      simp only [helperPass, hm]
      rw [ih (fun x hx => h x (List.mem_cons_of_mem _ hx))]

/-- C8: a tag without a colon is never dispatched to the helper table (the
helper pattern demands a name, a colon and a nonempty argument text), so the
helper pass leaves any colon-free text unchanged; consequently the bare year
tag falls through to variable substitution and renders empty whenever the
context has no year binding, while the year helper is invocable by passing a
dummy argument. -/
theorem C8_no_colon_no_helper_dispatch :
    (∀ (hs : Registry) (ctx : Value) (l : List Char),
      (∀ c ∈ l, c ≠ ':') → processHelpers hs ctx l = l) ∧
    (∀ (y : String) (ctx : Value), getNestedValue ctx "year".data = none →
      renderDefault y ctx "\x7b\x7byear\x7d\x7d" = "") ∧
    (∀ ctx : Value, renderDefault "2025" ctx "\x7b\x7byear:_\x7d\x7d" = "2025") := by
  refine ⟨?_, ?_, ?_⟩
  · intro hs ctx l h
    exact helperPass_no_colon hs ctx l h
  · intro y ctx h
    have hres : renderDefault y ctx "\x7b\x7byear\x7d\x7d" =
        String.mk (varReplacement ctx "year".data ++ []) := rfl
    rw [hres]
    unfold varReplacement
    rw [show jsTrimChars "year".data = "year".data from rfl, h]
    rfl
  · intro ctx
    rfl

/-- Witness for C8 at concrete inputs. -/
theorem C8_no_colon_no_helper_dispatch_witness :
    processHelpers (defaultHelpers "2025") (.obj .nil) "\x7b\x7byear\x7d\x7d".data =
      "\x7b\x7byear\x7d\x7d".data ∧
    renderDefault "2025" (.obj .nil) "\x7b\x7byear\x7d\x7d" = "" :=
  ⟨C8_no_colon_no_helper_dispatch.1 (defaultHelpers "2025") (.obj .nil)
      "\x7b\x7byear\x7d\x7d".data (by decide),
   C8_no_colon_no_helper_dispatch.2.1 "2025" (.obj .nil) rfl⟩

/-- takeWhile consumes exactly a satisfying run that is terminated by a
failing character. -/
theorem takeWhile_run (p : Char → Bool) :
    ∀ (xs : List Char) (y : Char) (ys : List Char),
      (∀ x ∈ xs, p x = true) → p y = false →
      (xs ++ y :: ys).takeWhile p = xs := by
  intro xs
  induction xs with
  | nil =>
    intro y ys _ hy
    simp [List.takeWhile_cons, hy]
  | cons a as ih =>
    intro y ys hall hy
    have hpa : p a = true := hall a (List.mem_cons_self a as)
    simp only [List.cons_append, List.takeWhile_cons, hpa, if_true]
    rw [ih y ys (fun x hx => hall x (List.mem_cons_of_mem a hx)) hy]

/-- The helper regex matches a well-formed helper tag exactly, capturing the
name and the raw argument text. -/
theorem matchHelperAt_tag (name args : List Char)
    (hn : name ≠ []) (hw : ∀ c ∈ name, isWordChar c = true)
    (ha : args ≠ []) (hb : ∀ c ∈ args, c ≠ '}') :
    matchHelperAt (helperTag name args) = some (name, args, []) := by
  have hnw : isWordChar ':' = false := by decide
  have htw : (name ++ ':' :: (args ++ ['}', '}'])).takeWhile isWordChar = name :=
    takeWhile_run isWordChar name ':' (args ++ ['}', '}']) hw hnw
  have hdrop : (name ++ ':' :: (args ++ ['}', '}'])).drop name.length =
      ':' :: (args ++ ['}', '}']) := List.drop_left name _
  have hbw : ∀ c ∈ args, (c != '}') = true := by
    intro c hc
    simp [hb c hc]
  have htw2 : (args ++ '}' :: ['}']).takeWhile (fun c => c != '}') = args :=
    takeWhile_run (fun c => c != '}') args '}' ['}'] hbw (by decide)
  have hdrop2 : (args ++ '}' :: ['}']).drop args.length = '}' :: ['}'] :=
    List.drop_left args _
  have hne : name.isEmpty = false := by
    cases name with
    | nil => exact absurd rfl hn
    | cons _ _ => rfl
  have hae : args.isEmpty = false := by
    cases args with
    | nil => exact absurd rfl ha
    | cons _ _ => rfl
  unfold matchHelperAt helperTag
  simp only [List.drop_succ_cons, List.drop_zero, htw, hne, Bool.false_eq_true, if_false,
    hdrop, htw2, hae, hdrop2]
  simp [twoOpenBraces, twoBraces, List.isPrefixOf]

/-- A skip count that covers the whole text makes a helper pass emit
nothing. -/
theorem helperPass_skip_all (hs : Registry) (ctx : Value) :
    ∀ (l : List Char) (skip : Nat), l.length ≤ skip → helperPass hs ctx l skip = [] := by
  intro l
  induction l with
  | nil =>
    intro skip _
    cases skip <;> rfl
  | cons c cs ih =>
    intro skip hle
    cases skip with
    | zero => simp at hle
    | succ s =>
      simp only [helperPass]
      exact ih s (by simpa using hle)

/-- C4: a helper-invocation tag over a name with no registered helper, or
whose helper throws, is replaced by its own original text, and rendering of
the rest of the template continues (the frobnicate tag stays verbatim while
the title variable after it is still substituted); no exception escapes the
dispatch. -/
theorem C4_unknown_or_throwing_helper_keeps_tag :
    (∀ (hs : Registry) (ctx : Value) (name args : List Char),
      name ≠ [] → (∀ c ∈ name, isWordChar c = true) →
      args ≠ [] → (∀ c ∈ args, c ≠ '}') →
      lookupHelper hs (String.mk name) = none →
        processHelpers hs ctx (helperTag name args) = helperTag name args) ∧
    (∀ (hs : Registry) (ctx : Value) (name args : List Char) (fn : HelperFn),
      name ≠ [] → (∀ c ∈ name, isWordChar c = true) →
      args ≠ [] → (∀ c ∈ args, c ≠ '}') →
      lookupHelper hs (String.mk name) = some fn →
      fn ctx ((splitOnChar ',' args).map jsTrimChars) = .thrown →
        processHelpers hs ctx (helperTag name args) = helperTag name args) ∧
    (∀ y : String,
      renderDefault y (.obj (Fields.cons "title" (.str "T") .nil))
        "\x7b\x7bfrobnicate:x\x7d\x7d \x7b\x7btitle\x7d\x7d" = "\x7b\x7bfrobnicate:x\x7d\x7d T") := by
  refine ⟨?_, ?_, ?_⟩
  · intro hs ctx name args hn hw ha hb hl
    have hm := matchHelperAt_tag name args hn hw ha hb
    unfold helperTag at hm
    show helperPass hs ctx ('{' :: '{' :: (name ++ ':' :: (args ++ ['}', '}']))) 0 =
      helperTag name args
    simp only [helperPass, hm, Nat.sub_zero, List.length_nil]
    rw [helperPass_skip_all hs ctx _ _ (Nat.le_refl _)]
    simp [helperReplacement, hl, helperTag]
  · intro hs ctx name args fn hn hw ha hb hl hthrow
    have hm := matchHelperAt_tag name args hn hw ha hb
    unfold helperTag at hm
    show helperPass hs ctx ('{' :: '{' :: (name ++ ':' :: (args ++ ['}', '}']))) 0 =
      helperTag name args
    simp only [helperPass, hm, Nat.sub_zero, List.length_nil]
    rw [helperPass_skip_all hs ctx _ _ (Nat.le_refl _)]
    simp [helperReplacement, hl, hthrow, helperTag]
  · intro y
    rfl

/-- Witness for C4 at concrete inputs: no helper named frobnicate is in the
default table, and a throwing custom helper (here: one modelling the icon
helper invoked without a config binding, which throws on the property access)
keeps its tag. -/
theorem C4_unknown_or_throwing_helper_keeps_tag_witness :
    processHelpers (defaultHelpers "2025") (.obj .nil)
      (helperTag "frobnicate".data "x".data) = helperTag "frobnicate".data "x".data ∧
    processHelpers [("boom", iconHelper)] (.obj .nil)
      (helperTag "boom".data "x".data) = helperTag "boom".data "x".data :=
  ⟨C4_unknown_or_throwing_helper_keeps_tag.1 (defaultHelpers "2025") (.obj .nil)
      "frobnicate".data "x".data (by decide) (by decide) (by decide) (by decide) rfl,
   C4_unknown_or_throwing_helper_keeps_tag.2.1 [("boom", iconHelper)] (.obj .nil)
      "boom".data "x".data iconHelper (by decide) (by decide) (by decide) (by decide) rfl rfl⟩

/-- A boolean prefix test yields the corresponding decomposition. -/
theorem eq_append_drop_of_isPrefixOf {p l : List Char} (h : p.isPrefixOf l = true) :
    l = p ++ l.drop p.length := by
  obtain ⟨t, ht⟩ := List.isPrefixOf_iff_prefix.mp h
  rw [← ht, List.drop_left]

/-- Dropping the length of the takeWhile run is dropWhile. -/
theorem drop_length_takeWhile (p : Char → Bool) (l : List Char) :
    l.drop (l.takeWhile p).length = l.dropWhile p := by
  calc l.drop (l.takeWhile p).length
      = (l.takeWhile p ++ l.dropWhile p).drop (l.takeWhile p).length := by
        rw [List.takeWhile_append_dropWhile]
    _ = l.dropWhile p := List.drop_left _ _

/-- A successful lazy search decomposes the text as prefix, pattern, rest. -/
theorem findSub_structure {pat : List Char} :
    ∀ {l pre rest : List Char}, findSub pat l = some (pre, rest) → l = pre ++ pat ++ rest := by
  intro l
  induction l with
  | nil =>
    intro pre rest h
    unfold findSub at h
    split at h
    case isTrue hp =>
      simp only [Option.some.injEq, Prod.mk.injEq] at h
      obtain ⟨hpre, hrest⟩ := h
      subst hpre hrest
      simp [List.isEmpty_iff.mp hp]
    case isFalse => exact absurd h (by simp)
  | cons c cs ih =>
    intro pre rest h
    unfold findSub at h
    split at h
    case isTrue hp =>
      simp only [Option.some.injEq, Prod.mk.injEq] at h
      obtain ⟨hpre, hrest⟩ := h
      subst hpre hrest
      simpa using eq_append_drop_of_isPrefixOf hp
    case isFalse hnp =>
      cases hf : findSub pat cs with
      | none => rw [hf] at h; exact absurd h (by simp)
      | some pr =>
        rw [hf] at h
        obtain ⟨p1, p2⟩ := pr
        simp only [Option.map_some', Option.some.injEq, Prod.mk.injEq] at h
        obtain ⟨hpre, hrest⟩ := h
        subst hpre hrest
        have hcs := ih hf
        simp [hcs, List.append_assoc]

/-- A successful body scan decomposes the content as true branch, optional
else branch, closing tag and rest. -/
theorem scanIfBody_structure :
    ∀ {l t f r : List Char}, scanIfBody l = some (t, f, r) →
      (f = [] ∧ l = t ++ closeIf ++ r) ∨ l = t ++ elseMarker ++ f ++ closeIf ++ r := by
  intro l
  induction l with
  | nil =>
    intro t f r h
    exact absurd h (by simp [scanIfBody])
  | cons c cs ih =>
    intro t f r h
    unfold scanIfBody at h
    split at h
    case isTrue hp =>
      cases hf : findSub closeIf ((c :: cs).drop 9) with
      | none => rw [hf] at h; exact absurd h (by simp)
      | some pr =>
        rw [hf] at h
        obtain ⟨f0, r0⟩ := pr
        simp only [Option.map_some', Option.some.injEq, Prod.mk.injEq] at h
        obtain ⟨ht, hff, hrr⟩ := h
        subst ht hff hrr
        right
        have h9 : (c :: cs) = elseMarker ++ (c :: cs).drop 9 := by
          simpa using eq_append_drop_of_isPrefixOf hp
        have hfs := findSub_structure hf
        rw [h9, hfs]
        simp
    case isFalse h1 =>
      split at h
      case isTrue hc =>
        simp only [Option.some.injEq, Prod.mk.injEq] at h
        obtain ⟨ht, hff, hrr⟩ := h
        subst ht hff hrr
        left
        refine ⟨rfl, ?_⟩
        simpa using eq_append_drop_of_isPrefixOf hc
      case isFalse h2 =>
        cases hs : scanIfBody cs with
        | none => rw [hs] at h; exact absurd h (by simp)
        | some tfr =>
          rw [hs] at h
          obtain ⟨t0, f0, r0⟩ := tfr
          simp only [Option.map_some', Option.some.injEq, Prod.mk.injEq] at h
          obtain ⟨ht, hff, hrr⟩ := h
          subst ht hff hrr
          rcases ih hs with ⟨hf0, hcs⟩ | hcs
          · left
            exact ⟨hf0, by simp [hcs, List.append_assoc]⟩
          · right
            simp [hcs, List.append_assoc]

/-- A successful conditional match splits the text into a consumed segment of
at least branch lengths plus fourteen marker characters, followed by the
rest. -/
theorem matchIfAt_structure {l cond t f r : List Char}
    (h : matchIfAt l = some (cond, t, f, r)) :
    ∃ pre : List Char, l = pre ++ r ∧ t.length + f.length + 14 ≤ pre.length := by
  unfold matchIfAt at h
  split at h
  case isFalse => exact absurd h (by simp)
  case isTrue hp =>
    dsimp only at h
    split at h
    case isFalse => exact absurd h (by simp)
    case isTrue hk =>
      split at h
      case isFalse => exact absurd h (by simp)
      case isTrue hbr =>
        set A := l.drop 5 with hAdef
        set m := A.takeWhile (fun c => c != '}') with hmdef
        set R1 := A.drop m.length with hR1def
        set body := R1.drop 2 with hbodydef
        cases hs : scanIfBody body with
        | none => rw [hs] at h; exact absurd h (by simp)
        | some tfr =>
          rw [hs] at h
          obtain ⟨t0, f0, r0⟩ := tfr
          simp only [Option.map_some', Option.some.injEq, Prod.mk.injEq] at h
          obtain ⟨hcond, ht, hff, hrr⟩ := h
          subst ht
          subst hff
          subst hrr
          have hA : l = openIf ++ A := by
            rw [hAdef]
            simpa using eq_append_drop_of_isPrefixOf hp
          have hm2 : A = m ++ R1 := by
            rw [hR1def, hmdef, drop_length_takeWhile, List.takeWhile_append_dropWhile]
          have hR12 : R1 = twoBraces ++ body := by
            rw [hbodydef]
            simpa using eq_append_drop_of_isPrefixOf hbr
          have hmlen : 2 ≤ m.length := by omega
          rcases scanIfBody_structure hs with ⟨hf0, hbody⟩ | hbody
          · subst hf0
            refine ⟨openIf ++ m ++ twoBraces ++ t0 ++ closeIf, ?_, ?_⟩
            · rw [hA, hm2, hR12, hbody]
              simp [List.append_assoc]
            · simp [openIf, twoBraces, closeIf, List.length_append]
              try omega
          · refine ⟨openIf ++ m ++ twoBraces ++ t0 ++ elseMarker ++ f0 ++ closeIf, ?_, ?_⟩
            · rw [hA, hm2, hR12, hbody]
              simp [List.append_assoc]
            · simp [openIf, twoBraces, closeIf, elseMarker, List.length_append]
              try omega

/-- A successful loop match splits the text into a consumed segment of at
least the body length plus eighteen marker characters, followed by the
rest. -/
theorem matchEachAt_structure {l p b r : List Char}
    (h : matchEachAt l = some (p, b, r)) :
    ∃ pre : List Char, l = pre ++ r ∧ b.length + 18 ≤ pre.length := by
  unfold matchEachAt at h
  split at h
  case isFalse => exact absurd h (by simp)
  case isTrue hp =>
    dsimp only at h
    split at h
    case isFalse => exact absurd h (by simp)
    case isTrue hk =>
      split at h
      case isFalse => exact absurd h (by simp)
      case isTrue hbr =>
        set A := l.drop 7 with hAdef
        set m := A.takeWhile (fun c => c != '}') with hmdef
        set R1 := A.drop m.length with hR1def
        set body := R1.drop 2 with hbodydef
        cases hs : findSub closeEach body with
        | none => rw [hs] at h; exact absurd h (by simp)
        | some pr =>
          rw [hs] at h
          obtain ⟨b0, r0⟩ := pr
          simp only [Option.map_some', Option.some.injEq, Prod.mk.injEq] at h
          obtain ⟨hpath, hbb, hrr⟩ := h
          subst hbb
          subst hrr
          have hA : l = openEach ++ A := by
            rw [hAdef]
            simpa using eq_append_drop_of_isPrefixOf hp
          have hm2 : A = m ++ R1 := by
            rw [hR1def, hmdef, drop_length_takeWhile, List.takeWhile_append_dropWhile]
          have hR12 : R1 = twoBraces ++ body := by
            rw [hbodydef]
            simpa using eq_append_drop_of_isPrefixOf hbr
          have hmlen : 2 ≤ m.length := by omega
          have hbody := findSub_structure hs
          refine ⟨openEach ++ m ++ twoBraces ++ b0 ++ closeEach, ?_, ?_⟩
          · rw [hA, hm2, hR12, hbody]
            simp [List.append_assoc]
          · simp [openEach, twoBraces, closeEach, List.length_append]
            try omega

/-- One conditional pass can only shorten the text beyond its skip count. -/
theorem ifPass_length_le (ctx : Value) :
    ∀ (l : List Char) (skip : Nat), (ifPass ctx l skip).length ≤ l.length - skip := by
  intro l
  induction l with
  | nil => intro skip; simp [ifPass]
  | cons c cs ih =>
    intro skip
    cases skip with
    | succ s =>
      have := ih s
      simp only [ifPass, List.length_cons]
      omega
    | zero =>
      cases hm : matchIfAt (c :: cs) with
      | none =>
        simp only [ifPass, hm, List.length_cons]
        have := ih 0
        omega
      | some cr =>
        obtain ⟨cond, t, f, r⟩ := cr
        obtain ⟨pre, hl, hlen⟩ := matchIfAt_structure hm
        have h1 := ih (cs.length - r.length)
        have hb : (if evaluateCondition ctx (jsTrimChars cond) then t else f).length ≤
            t.length + f.length := by
          split <;> omega
        have hlr : cs.length + 1 = pre.length + r.length := by
          have := congrArg List.length hl
          simpa [List.length_append] using this
        simp only [ifPass, hm, List.length_append, List.length_cons]
        omega

/-- When a conditional matches somewhere, one pass strictly shortens the
text: the match is replaced by one of its branches, which is at least
fourteen characters shorter than the match. -/
theorem ifPass_length_lt (ctx : Value) :
    ∀ l : List Char, ifTest l = true → (ifPass ctx l 0).length < l.length := by
  intro l
  induction l with
  | nil => intro h; simp [ifTest] at h
  | cons c cs ih =>
    intro h
    cases hm : matchIfAt (c :: cs) with
    | some cr =>
      obtain ⟨cond, t, f, r⟩ := cr
      obtain ⟨pre, hl, hlen⟩ := matchIfAt_structure hm
      have h1 := ifPass_length_le ctx cs (cs.length - r.length)
      have hb : (if evaluateCondition ctx (jsTrimChars cond) then t else f).length ≤
          t.length + f.length := by
        split <;> omega
      have hlr : cs.length + 1 = pre.length + r.length := by
        have := congrArg List.length hl
        simpa [List.length_append] using this
      simp only [ifPass, hm, List.length_append, List.length_cons]
      omega
    | none =>
      have h2 : ifTest cs = true := by
        have heq : ifTest (c :: cs) = ((matchIfAt (c :: cs)).isSome || ifTest cs) := rfl
        rw [heq, hm] at h
        simpa using h
      have := ih h2
      simp only [ifPass, hm, List.length_cons]
      omega

/-- The conditional while loop returns immediately when no conditional
matches (the test of the while condition fails). -/
theorem condLoopF_exit_no_match (ctx : Value) (f : Nat) (prev out : List Char)
    (h : ifTest out = false) : condLoopF ctx (f + 1) prev out = out := by
  simp [condLoopF, h]

/-- The conditional while loop returns immediately on the first pass that
produced no textual change. -/
theorem condLoopF_exit_fixed (ctx : Value) (f : Nat) (out : List Char) :
    condLoopF ctx (f + 1) out out = out := by
  simp [condLoopF]

/-- Any iteration budget beyond the text length gives the same loop result:
the loop terminates by itself, because every productive iteration strictly
shortens the text. -/
theorem condLoopF_fuel_independent (ctx : Value) :
    ∀ (n : Nat) (out : List Char), out.length ≤ n →
      ∀ (f g : Nat) (prev : List Char), out.length < f → out.length < g →
        condLoopF ctx f prev out = condLoopF ctx g prev out := by
  intro n
  induction n with
  | zero =>
    intro out hn f g prev hf hg
    have hout : out = [] := List.length_eq_zero.mp (Nat.le_zero.mp hn)
    subst hout
    obtain ⟨f0, rfl⟩ : ∃ f0, f = f0 + 1 := ⟨f - 1, by omega⟩
    obtain ⟨g0, rfl⟩ : ∃ g0, g = g0 + 1 := ⟨g - 1, by omega⟩
    rw [condLoopF_exit_no_match ctx f0 prev [] rfl,
      condLoopF_exit_no_match ctx g0 prev [] rfl]
  | succ n ihn =>
    intro out hn f g prev hf hg
    obtain ⟨f0, rfl⟩ : ∃ f0, f = f0 + 1 := ⟨f - 1, by omega⟩
    obtain ⟨g0, rfl⟩ : ∃ g0, g = g0 + 1 := ⟨g - 1, by omega⟩
    by_cases hguard : out ≠ prev ∧ ifTest out = true
    · have hstep_f : condLoopF ctx (f0 + 1) prev out = condLoopF ctx f0 out (ifPass ctx out 0) := by
        simp only [condLoopF]
        rw [if_pos hguard]
      have hstep_g : condLoopF ctx (g0 + 1) prev out = condLoopF ctx g0 out (ifPass ctx out 0) := by
        simp only [condLoopF]
        rw [if_pos hguard]
      have hlt := ifPass_length_lt ctx out hguard.2
      rw [hstep_f, hstep_g]
      exact ihn (ifPass ctx out 0) (by omega) f0 g0 out (by omega) (by omega)
    · simp only [condLoopF]
      rw [if_neg hguard, if_neg hguard]

/-- C5: the conditional-reprocessing loop makes strict progress (a pass with a
match strictly shortens the text, so unterminated markers cannot loop), exits
on the first pass without a match or without a change, and its result is
independent of any budget beyond the text length, which makes
`processConditionals` and hence `render` a total function of its inputs; the
branch and body captures of the block regexes are strictly smaller than the
matched text, so the recursive rendering of loop bodies is on strictly
smaller fragments; and an unterminated if marker passes through the whole
render unchanged rather than looping. -/
theorem C5_render_total_and_loop_terminates :
    (∀ (ctx : Value) (l : List Char), ifTest l = true → (ifPass ctx l 0).length < l.length) ∧
    (∀ (ctx : Value) (f : Nat) (prev out : List Char), ifTest out = false →
      condLoopF ctx (f + 1) prev out = out) ∧
    (∀ (ctx : Value) (f : Nat) (out : List Char), condLoopF ctx (f + 1) out out = out) ∧
    (∀ (ctx : Value) (f g : Nat) (prev out : List Char), out.length < f → out.length < g →
      condLoopF ctx f prev out = condLoopF ctx g prev out) ∧
    (∀ (ctx : Value) (g : Nat) (l : List Char), l.length < g →
      processConditionals ctx l = condLoopF ctx g [] l) ∧
    (∀ l cond t f r : List Char, matchIfAt l = some (cond, t, f, r) →
      t.length < l.length ∧ f.length < l.length) ∧
    (∀ l p b r : List Char, matchEachAt l = some (p, b, r) → b.length < l.length) ∧
    (∀ (y : String) (ctx : Value),
      renderDefault y ctx "\x7b\x7b#if a\x7d\x7dno closing tag" =
        "\x7b\x7b#if a\x7d\x7dno closing tag") := by
  refine ⟨ifPass_length_lt, condLoopF_exit_no_match, condLoopF_exit_fixed, ?_, ?_, ?_, ?_, ?_⟩
  · intro ctx f g prev out hf hg
    exact condLoopF_fuel_independent ctx out.length out (Nat.le_refl _) f g prev hf hg
  · intro ctx g l hg
    exact condLoopF_fuel_independent ctx l.length l (Nat.le_refl _) (l.length + 1) g []
      (by omega) hg
  · intro l cond t f r h
    obtain ⟨pre, hl, hlen⟩ := matchIfAt_structure h
    have := congrArg List.length hl
    simp [List.length_append] at this
    omega
  · intro l p b r h
    obtain ⟨pre, hl, hlen⟩ := matchEachAt_structure h
    have := congrArg List.length hl
    simp [List.length_append] at this
    omega
  · intro y ctx
    rfl

/-- Witness for C5 at concrete inputs: on a template with one conditional the
pass strictly shortens the text, the loop ignores surplus budget, and the
block matchers capture strictly smaller fragments. -/
theorem C5_render_total_and_loop_terminates_witness :
    (ifPass (.obj .nil) "\x7b\x7b#if a\x7d\x7dx\x7b\x7b/if\x7d\x7d".data 0).length <
      "\x7b\x7b#if a\x7d\x7dx\x7b\x7b/if\x7d\x7d".data.length ∧
    condLoopF (.obj .nil) 3 "q".data "z".data = condLoopF (.obj .nil) 9 "q".data "z".data ∧
    processConditionals (.obj .nil) "ok".data = condLoopF (.obj .nil) 25 [] "ok".data ∧
    "x".data.length < "\x7b\x7b#if a\x7d\x7dx\x7b\x7b/if\x7d\x7d".data.length ∧
    "b".data.length < "\x7b\x7b#each xs\x7d\x7db\x7b\x7b/each\x7d\x7d".data.length :=
  ⟨C5_render_total_and_loop_terminates.1 (.obj .nil) _ (by decide),
   C5_render_total_and_loop_terminates.2.2.2.1 (.obj .nil) 3 9 "q".data "z".data
     (by decide) (by decide),
   C5_render_total_and_loop_terminates.2.2.2.2.1 (.obj .nil) 25 "ok".data (by decide),
   (C5_render_total_and_loop_terminates.2.2.2.2.2.1 "\x7b\x7b#if a\x7d\x7dx\x7b\x7b/if\x7d\x7d".data
     "a".data "x".data [] [] (by decide)).1,
   C5_render_total_and_loop_terminates.2.2.2.2.2.2.1 "\x7b\x7b#each xs\x7d\x7db\x7b\x7b/each\x7d\x7d".data
     "xs".data "b".data [] (by decide)⟩
